import Mathlib

/-!
# Verification of the pdfsplitter document-collection workflow engine

Shallow embedding of the core logic of `frontend/src/App.tsx`:
the page-selection validator `isValidSplit`, the default selection
`defaultSplitForPages`, the row collection operations (`updateSplit`,
`duplicateRow`, drag reordering via `arrayMove`), the readiness predicate
`canGenerate`, and the upload workflow (`uploadPDF`, `onDrop`, `onPaste`).

JavaScript strings are modelled as `List Char`; machine numbers as `Nat`
(all numbers involved are page counts and indices parsed from digit
strings). Fetch outcomes and `crypto.randomUUID()` are passed in as
explicit parameters so the stateful handlers become pure state
transformers.
-/

namespace PdfSplitter

/-- The ASCII whitespace characters removed by JavaScript
`String.prototype.trim` (space, tab, line feed, carriage return,
vertical tab, form feed). -/
def isJsWhitespace (c : Char) : Bool :=
  decide (c = ' ') || decide (c = '\t') || decide (c = '\n') ||
  decide (c = '\r') || decide (c = '\x0b') || decide (c = '\x0c')

/-- Model of JavaScript `s.trim()`: remove whitespace from both ends. -/
def jsTrim (s : List Char) : List Char :=
  ((s.dropWhile isJsWhitespace).reverse.dropWhile isJsWhitespace).reverse

/-- Model of JavaScript `s.split(",")`: split on every comma, keeping
empty pieces (`"".split(",")` is `[""]`). -/
def splitOnComma : List Char → List (List Char)
  | [] => [[]]
  | c :: rest =>
    if c = ',' then [] :: splitOnComma rest
    else
      match splitOnComma rest with
      | [] => [[c]]
      | h :: t => (c :: h) :: t

/-- The character class of the regex `\d`: an ASCII decimal digit. -/
def isDigitChar (c : Char) : Bool :=
  decide (48 ≤ c.toNat) && decide (c.toNat ≤ 57)

/-- Model of JavaScript `parseInt(s, 10)` on a string of decimal digits. -/
def parseDec (s : List Char) : Nat :=
  s.foldl (fun a c => 10 * a + (c.toNat - 48)) 0

/-- Model of matching a term against `^(\d+)(-(\d+))?$` and extracting the
numeric pair the code computes: `a = parseInt(m[1], 10)` and
`b = m[3] ? parseInt(m[3], 10) : a`. `none` when the term fails the
pattern. -/
def matchTerm (p : List Char) : Option (Nat × Nat) :=
  let d1 := p.takeWhile isDigitChar
  let rest := p.dropWhile isDigitChar
  if d1 = [] then none
  else
    match rest with
    | [] => some (parseDec d1, parseDec d1)
    | '-' :: r2 =>
      if r2.takeWhile isDigitChar = [] then none
      else if r2.dropWhile isDigitChar = [] then
        some (parseDec d1, parseDec (r2.takeWhile isDigitChar))
      else none
    | _ => none

/-- The per-term check in the loop body of `isValidSplit`: match the
term, then `if (a < 1 || b < 1 || a > max || b > max || a > b) return
false`. -/
def termCheckCode (max : Nat) (p : List Char) : Bool :=
  match matchTerm p with
  | none => false
  | some (a, b) =>
    if a < 1 ∨ b < 1 ∨ a > max ∨ b > max ∨ a > b then false else true

/-- Embedding of `isValidSplit` (App.tsx lines 29-41): reject when the
trimmed value is empty, split on commas, trim each part, drop empty
parts (`filter(Boolean)`), then require every remaining part to pass
the pattern-and-bounds check. -/
def isValidSplit (value : List Char) (max : Nat) : Bool :=
  if jsTrim value = [] then false
  else
    (((splitOnComma value).map jsTrim).filter (fun p => !p.isEmpty)).all
      (termCheckCode max)

/-- Decimal representation of a natural number as characters; model of
the number-to-string conversion inside the template literal
`` `1-${pages}` ``. -/
def natToChars (n : Nat) : List Char :=
  if h : n < 10 then [Nat.digitChar n]
  else natToChars (n / 10) ++ [Nat.digitChar (n % 10)]
decreasing_by
  exact Nat.div_lt_self (Nat.lt_of_lt_of_le (by norm_num) (Nat.le_of_not_lt h)) (by norm_num)

/-- Embedding of `defaultSplitForPages` (App.tsx line 43):
`` pages => `1-${pages}` ``. -/
def defaultSplitForPages (pages : Nat) : List Char :=
  '1' :: '-' :: natToChars pages

/-- Embedding of the `Row` record (App.tsx lines 8-18): server metadata
(`documentId`, `name`, `size`, `pages`) plus the local stable `key` and
the current `split` selection expression. -/
structure Row where
  key : String
  documentId : String
  name : String
  size : Nat
  pages : Nat
  split : List Char
deriving DecidableEq, Repr

/-- Embedding of `canGenerate` (App.tsx line 204):
`rows.length > 0 && rows.every((r) => isValidSplit(r.split, r.pages))`. -/
def canGenerate (rows : List Row) : Bool :=
  decide (rows.length > 0) && rows.all (fun r => isValidSplit r.split r.pages)

/-- Embedding of `updateSplit` (App.tsx line 192):
`rows.map((r) => (r.key === key ? { ...r, split } : r))`. -/
def updateSplit (key : String) (split : List Char) (rows : List Row) : List Row :=
  rows.map (fun r => if r.key = key then { r with split := split } else r)

/-- Embedding of `duplicateRow` (App.tsx lines 194-202). The fresh value
of `crypto.randomUUID()` is passed in as `freshKey`. `findIndex` is
modelled by `List.findIdx?` (`none` for `-1`); the copy is inserted
right after the source via `slice(0, index+1)` / `slice(index+1)`. -/
def duplicateRow (freshKey : String) (key : String) (rows : List Row) : List Row :=
  match rows.findIdx? (fun r => r.key = key) with
  | none => rows
  | some index =>
    match rows[index]? with
    | none => rows
    | some original =>
      rows.take (index + 1) ++ { original with key := freshKey } :: rows.drop (index + 1)

/-- Model of `arrayMove` from `@dnd-kit/sortable`, the library routine
`onDragEnd` delegates to: remove the element at `i` and insert it at
position `j` of the shortened list. Out-of-range `i` is guarded as the
identity; the claims only concern in-bounds indices. -/
def arrayMove {α : Type} (l : List α) (i j : Nat) : List α :=
  match l[i]? with
  | none => l
  | some x => (l.eraseIdx i).insertIdx j x

/-- Embedding of `onDragEnd` (App.tsx lines 131-138): when a drop target
exists and the dragged key differs from the target key, move the row at
the dragged key's index to the target key's index. -/
def onDragEnd (activeKey overKey : String) (rows : List Row) : List Row :=
  if activeKey ≠ overKey then
    arrayMove rows (rows.findIdx (fun r => r.key = activeKey))
      (rows.findIdx (fun r => r.key = overKey))
  else rows

/-- The metadata returned by the upload collaborator
(`UploadedDocMeta`, App.tsx lines 8-13). -/
structure UploadedDocMeta where
  documentId : String
  size : Nat
  pages : Nat
deriving DecidableEq, Repr

/-- Outcome of the `fetch` to the upload endpoint: parsed metadata on a
successful response, or the caught error message (`Upload failed (status)`
for a non-ok response, the network error's message otherwise). -/
inductive UploadOutcome where
  | ok (meta : UploadedDocMeta)
  | fail (msg : String)
deriving DecidableEq, Repr

/-- The component state `uploadPDF` touches (App.tsx lines 118-123):
the row collection, the error slot, and the two busy flags. -/
structure AppState where
  rows : List Row
  error : Option String
  uploading : Bool
  loading : Bool
deriving DecidableEq, Repr

/-- Embedding of `uploadPDF` (App.tsx lines 142-168) as a state
transformer, with the fetch outcome and the fresh `crypto.randomUUID()`
value as parameters: clear the error, set `uploading`; on success append
one new row built from the response metadata with the default split; on
failure set the error to `e.message || "Upload failed"`; finally clear
`uploading`. -/
def uploadPDF (outcome : UploadOutcome) (freshKey : String) (fileName : String)
    (s : AppState) : AppState :=
  let s1 : AppState := { s with error := none, uploading := true }
  match outcome with
  | .ok meta =>
    { s1 with
      rows := s1.rows ++
        [{ key := freshKey, documentId := meta.documentId, name := fileName,
           size := meta.size, pages := meta.pages,
           split := defaultSplitForPages meta.pages }],
      uploading := false }
  | .fail msg =>
    { s1 with
      error := some (if msg = "" then "Upload failed" else msg),
      uploading := false }

/-- A browser `File`/clipboard item: name and MIME type. -/
structure JsFile where
  name : String
  type : String
deriving DecidableEq, Repr

/-- Embedding of `onDrop` (App.tsx lines 178-182): take the first
dropped file; upload it only when its MIME type is
`application/pdf`, otherwise do nothing. -/
def onDrop (outcome : UploadOutcome) (freshKey : String) (files : List JsFile)
    (s : AppState) : AppState :=
  match files.head? with
  | none => s
  | some f =>
    if f.type = "application/pdf" then uploadPDF outcome freshKey f.name s else s

/-- Embedding of `onPaste` (App.tsx lines 184-190): find the first
clipboard item whose type is `application/pdf`; upload it when found,
otherwise do nothing. -/
def onPaste (outcome : UploadOutcome) (freshKey : String) (items : List JsFile)
    (s : AppState) : AppState :=
  match items.find? (fun i => i.type = "application/pdf") with
  | none => s
  | some f => uploadPDF outcome freshKey f.name s

/-- The per-term condition exactly as claim C1 words it: the term
matches `^\d+(-\d+)?$` with numeric bounds `(a, b)` (`b = a` for a bare
number) and `1 ≤ a ≤ b ≤ max`. -/
def termCheckSpec (max : Nat) (p : List Char) : Bool :=
  match matchTerm p with
  | none => false
  | some (a, b) => decide (1 ≤ a ∧ a ≤ b ∧ b ≤ max)

/-- The validity predicate as claim C1 words it: every comma-separated
trimmed (nonempty) term of the expression satisfies the pattern and
bounds condition. Stated from the spec's words, to be compared with the
code's `isValidSplit`. -/
def specValidC1 (value : List Char) (max : Nat) : Bool :=
  (((splitOnComma value).map jsTrim).filter (fun p => !p.isEmpty)).all
    (termCheckSpec max)

/-- Sample row with key "a" for concrete witnesses. -/
def rowA : Row :=
  { key := "a", documentId := "d1", name := "one.pdf", size := 100,
    pages := 3, split := defaultSplitForPages 3 }

/-- Sample row with key "b" for concrete witnesses. -/
def rowB : Row :=
  { key := "b", documentId := "d2", name := "two.pdf", size := 200,
    pages := 2, split := defaultSplitForPages 2 }

/-- Sample row with key "c" for concrete witnesses. -/
def rowC : Row :=
  { key := "c", documentId := "d3", name := "three.pdf", size := 300,
    pages := 5, split := defaultSplitForPages 5 }

/-- The code's per-term loop check coincides with the claim's wording of
the pattern-and-bounds condition. -/
theorem termCheck_code_eq_spec (max : Nat) (p : List Char) :
    termCheckCode max p = termCheckSpec max p := by
  unfold termCheckCode termCheckSpec
  cases hm : matchTerm p with
  | none => rfl
  | some ab =>
    obtain ⟨a, b⟩ := ab
    show (if a < 1 ∨ b < 1 ∨ a > max ∨ b > max ∨ a > b then false else true)
        = decide (1 ≤ a ∧ a ≤ b ∧ b ≤ max)
    by_cases h : a < 1 ∨ b < 1 ∨ a > max ∨ b > max ∨ a > b
    · rw [if_pos h]
      symm
      rw [decide_eq_false_iff_not]
      omega
    · rw [if_neg h]
      symm
      rw [decide_eq_true_eq]
      omega

/-- C1 (counterexample): at the empty expression the claimed equivalence
fails — every (zero) comma-separated trimmed term vacuously satisfies
the pattern-and-bounds condition, yet `isValidSplit` returns false. -/
theorem c1_counterexample :
    ¬ (isValidSplit "".toList 5 = true ↔ specValidC1 "".toList 5 = true) := by
  decide

/-- C1 (amended): `isValidSplit value max` is true iff the trimmed
expression is nonempty AND every comma-separated trimmed nonempty term
matches `^\d+(-\d+)?$` with numeric bounds `(a,b)` (`b = a` for a bare
number) satisfying `1 ≤ a ≤ b ≤ max`. -/
theorem c1_amended_validate_iff (value : List Char) (max : Nat) :
    isValidSplit value max = true ↔
      jsTrim value ≠ [] ∧ specValidC1 value max = true := by
  unfold isValidSplit specValidC1
  by_cases h : jsTrim value = []
  · simp [h]
  · rw [if_neg h]
    rw [show termCheckCode max = termCheckSpec max from
      funext (termCheck_code_eq_spec max)]
    simp [h]

/-- C1 (witness): the amended equivalence at a concrete expression. -/
theorem c1_witness :
    isValidSplit "1-3".toList 5 = true ↔
      jsTrim "1-3".toList ≠ [] ∧ specValidC1 "1-3".toList 5 = true :=
  c1_amended_validate_iff "1-3".toList 5

/-- C2: the code tolerates stray commas (`"1,,2"` is valid), but a
comma-only string also passes: `isValidSplit ",,," 5` evaluates to
`true`, because the trim guard only rejects whitespace-only strings and
the comma-only string leaves zero terms, making the loop vacuous. The
spec requires such empty selections to be invalid. -/
theorem c2_comma_only_evaluation :
    isValidSplit "1,,2".toList 5 = true ∧ isValidSplit ",,,".toList 5 = true :=
  ⟨by decide, by decide⟩

/-- C3: `canGenerate` is true iff the collection is non-empty and every
row's split passes `isValidSplit` against that row's own page count. -/
theorem c3_canGenerate_iff (rows : List Row) :
    canGenerate rows = true ↔
      rows ≠ [] ∧ ∀ r ∈ rows, isValidSplit r.split r.pages = true := by
  simp [canGenerate, List.all_eq_true, List.length_pos]

/-- C3 (witness): the equivalence at a concrete one-row collection. -/
theorem c3_witness :
    canGenerate [rowA] = true ↔
      [rowA] ≠ [] ∧ ∀ r ∈ [rowA], isValidSplit r.split r.pages = true :=
  c3_canGenerate_iff [rowA]

/-- C4: when the upload fetch fails (network error or non-success
response, both surfacing as the caught message), the row collection is
left exactly as it was, the error slot holds the descriptive message
(`e.message || "Upload failed"`), and the `uploading` flag is back to
false (the workflow leaves the Uploading state). -/
theorem c4_upload_failure_frame (s : AppState) (freshKey fileName msg : String) :
    (uploadPDF (.fail msg) freshKey fileName s).rows = s.rows ∧
    (uploadPDF (.fail msg) freshKey fileName s).error
      = some (if msg = "" then "Upload failed" else msg) ∧
    (uploadPDF (.fail msg) freshKey fileName s).uploading = false ∧
    (uploadPDF (.fail msg) freshKey fileName s).loading = s.loading :=
  ⟨rfl, rfl, rfl, rfl⟩

/-- C5 (counterexample): dropping a non-PDF file leaves the state
entirely unchanged — in particular the error slot stays `none`, so no
error is surfaced on the ErrorChannel, contrary to the claim. -/
theorem c5_counterexample :
    onDrop (.fail "boom") "k" [{ name := "notes.txt", type := "text/plain" }]
        { rows := [], error := none, uploading := false, loading := false }
      = { rows := [], error := none, uploading := false, loading := false } ∧
    (onDrop (.fail "boom") "k" [{ name := "notes.txt", type := "text/plain" }]
        { rows := [], error := none, uploading := false, loading := false }).error
      = none :=
  ⟨rfl, rfl⟩

/-- C5 (amended): intake of a non-PDF file fails fast with no state
change at all — no upload call is made, the collection, workflow flags
AND the ErrorChannel are left untouched (the file is silently ignored;
no error is surfaced). -/
theorem c5_amended_non_pdf_ignored (outcome : UploadOutcome) (freshKey : String)
    (s : AppState) :
    (∀ (f : JsFile) (rest : List JsFile), f.type ≠ "application/pdf" →
      onDrop outcome freshKey (f :: rest) s = s) ∧
    (∀ items : List JsFile, (∀ i ∈ items, i.type ≠ "application/pdf") →
      onPaste outcome freshKey items s = s) := by
  constructor
  · intro f rest hf
    simp [onDrop, hf]
  · intro items hi
    have hfind : items.find? (fun i => i.type = "application/pdf") = none := by
      rw [List.find?_eq_none]
      intro x hx
      simp [hi x hx]
    simp [onPaste, hfind]

/-- C5 (witness): concrete non-PDF drop and paste leave a concrete state
unchanged. -/
theorem c5_witness :
    onDrop (.fail "x") "k" [{ name := "a.txt", type := "text/plain" }]
        { rows := [], error := none, uploading := false, loading := false }
      = { rows := [], error := none, uploading := false, loading := false } ∧
    onPaste (.fail "x") "k" [{ name := "a.txt", type := "text/plain" }]
        { rows := [], error := none, uploading := false, loading := false }
      = { rows := [], error := none, uploading := false, loading := false } := by
  constructor
  · exact (c5_amended_non_pdf_ignored _ _ _).1 _ [] (by decide)
  · exact (c5_amended_non_pdf_ignored _ _ _).2 _ (by decide)

/-- C9: `updateSplit key split` preserves the collection's length and
order, maps the row whose key matches to the same row with only its
`split` field replaced (all other fields kept by the record update), and
leaves every non-matching row untouched — for any `split` string
whatsoever, valid or not (the operation never consults validity). -/
theorem c9_updateSplit_frame (rows : List Row) (key : String) (split : List Char) :
    (updateSplit key split rows).length = rows.length ∧
    ∀ i : Nat, (updateSplit key split rows)[i]? =
      (rows[i]?).map (fun r => if r.key = key then { r with split := split } else r) := by
  refine ⟨List.length_map rows _, fun i => ?_⟩
  simp [updateSplit, List.getElem?_map]

/-- C10: the grammar's number-formatting policy as implemented: a term
with leading zeros is accepted and parsed as decimal (`"03"` is valid
for `max = 5` and denotes the pair `(3,3)`, i.e. page 3); a term with
internal whitespace is rejected for every bound (`"1 - 4"`); whitespace
around whole terms, adjacent to commas, is trimmed and tolerated. -/
theorem c10_number_formatting_policy :
    isValidSplit "03".toList 5 = true ∧
    matchTerm "03".toList = some (3, 3) ∧
    (∀ max : Nat, isValidSplit "1 - 4".toList max = false) ∧
    isValidSplit " 1 , 2-3 ".toList 5 = true :=
  ⟨by decide, by decide, fun _ => rfl, by decide⟩

/-- Reinserting the element found at index `i` back at index `i` after
erasing it restores the original list. -/
theorem insertIdx_eraseIdx_self : ∀ (l : List Row) (i : Nat) (x : Row),
    l[i]? = some x → (l.eraseIdx i).insertIdx i x = l
  | [], i, x, h => by simp at h
  | a :: t, 0, x, h => by
    simp only [List.getElem?_cons_zero, Option.some.injEq] at h
    subst h
    rfl
  | a :: t, i + 1, x, h => by
    simp only [List.getElem?_cons_succ] at h
    show a :: (t.eraseIdx i).insertIdx i x = a :: t
    rw [insertIdx_eraseIdx_self t i x h]

/-- C6: for in-bounds indices, `arrayMove` (the routine backing
drag-based reordering) keeps the length, puts the entry from `fromIndex`
at `toIndex`, preserves the relative order of all untouched entries
(deleting the moved entry from the result gives the original minus that
entry), is a no-op when the indices are equal, and on a three-row
collection moves `0 → 2` as `[A,B,C] ↦ [B,C,A]` and `2 → 0` as
`[A,B,C] ↦ [C,A,B]`. -/
theorem c6_reorder (A B C : Row) (l : List Row) (i j : Nat)
    (hi : i < l.length) (hj : j < l.length) :
    (arrayMove l i j).length = l.length ∧
    (arrayMove l i j)[j]? = l[i]? ∧
    (arrayMove l i j).eraseIdx j = l.eraseIdx i ∧
    (i = j → arrayMove l i j = l) ∧
    arrayMove [A, B, C] 0 2 = [B, C, A] ∧
    arrayMove [A, B, C] 2 0 = [C, A, B] := by
  obtain ⟨x, hx⟩ : ∃ x, l[i]? = some x := ⟨l[i], List.getElem?_eq_getElem hi⟩
  have hmove : arrayMove l i j = (l.eraseIdx i).insertIdx j x := by
    simp [arrayMove, hx]
  have hlen_e : (l.eraseIdx i).length = l.length - 1 := by
    rw [List.length_eraseIdx, if_pos hi]
  have hj' : j ≤ (l.eraseIdx i).length := by omega
  refine ⟨?_, ?_, ?_, ?_, ?_, ?_⟩
  · rw [hmove, List.length_insertIdx _ _ hj']
    omega
  · have hlt : j < ((l.eraseIdx i).insertIdx j x).length := by
      rw [List.length_insertIdx _ _ hj']
      omega
    rw [hmove, List.getElem?_eq_getElem hlt,
      List.getElem_insertIdx_self _ _ _ hj', hx]
  · rw [hmove, List.eraseIdx_insertIdx]
  · intro hij
    subst hij
    rw [hmove]
    exact insertIdx_eraseIdx_self l i x hx
  · rfl
  · rfl

/-- C6 (witness): the concrete `0 → 2` move on a concrete three-row
collection. -/
theorem c6_witness :
    arrayMove [rowA, rowB, rowC] 0 2 = [rowB, rowC, rowA] :=
  (c6_reorder rowA rowB rowC [rowA, rowB, rowC] 0 2 (by decide)
    (by decide)).2.2.2.2.1

/-- C7: `duplicateRow` with an absent key returns the collection
unchanged; with the key found at index `i` (and the source row `r`
there) it produces a collection one longer in which the copy — equal to
the source except for the fresh key, in particular with the same
`split` and the same `documentId` — sits at index `i + 1`, every entry
at an index `≤ i` keeps its position, every entry after the source
shifts by exactly one, and (when the generated key is fresh) every
position other than `i + 1` holds a row whose key differs from the
fresh key. -/
theorem c7_duplicate (freshKey key : String) (rows : List Row) :
    ((∀ r ∈ rows, r.key ≠ key) → duplicateRow freshKey key rows = rows) ∧
    (∀ (i : Nat) (r : Row),
      rows.findIdx? (fun r => r.key = key) = some i → rows[i]? = some r →
      (duplicateRow freshKey key rows).length = rows.length + 1 ∧
      (duplicateRow freshKey key rows)[i + 1]? = some { r with key := freshKey } ∧
      ({ r with key := freshKey } : Row).split = r.split ∧
      ({ r with key := freshKey } : Row).documentId = r.documentId ∧
      (∀ j, j ≤ i → (duplicateRow freshKey key rows)[j]? = rows[j]?) ∧
      (∀ j, i < j → (duplicateRow freshKey key rows)[j + 1]? = rows[j]?) ∧
      ((∀ r' ∈ rows, r'.key ≠ freshKey) →
        ∀ (j : Nat) (r' : Row), j ≠ i + 1 →
          (duplicateRow freshKey key rows)[j]? = some r' →
          r'.key ≠ freshKey)) := by
  constructor
  · intro h
    have hnone : rows.findIdx? (fun r => r.key = key) = none :=
      List.findIdx?_eq_none_iff.mpr (fun x hx => by simp [h x hx])
    simp [duplicateRow, hnone]
  · intro i r hfind hget
    have hi : i < rows.length := by
      obtain ⟨h, -⟩ := List.getElem?_eq_some.mp hget
      exact h
    have hD : duplicateRow freshKey key rows =
        rows.take (i + 1) ++ { r with key := freshKey } :: rows.drop (i + 1) := by
      simp [duplicateRow, hfind, hget]
    have htl : (rows.take (i + 1)).length = i + 1 := by
      rw [List.length_take]
      exact Nat.min_eq_left (by omega)
    have htake : ∀ j, j ≤ i → (duplicateRow freshKey key rows)[j]? = rows[j]? := by
      intro j hj
      rw [hD, List.getElem?_append, if_pos (by omega), List.getElem?_take,
        if_pos (by omega)]
    have hshift : ∀ j, i < j →
        (duplicateRow freshKey key rows)[j + 1]? = rows[j]? := by
      intro j hj
      rw [hD, List.getElem?_append_right (by omega), htl]
      have h1 : j + 1 - (i + 1) = (j - i - 1) + 1 := by omega
      rw [h1, List.getElem?_cons_succ, List.getElem?_drop]
      congr 1
      omega
    have hat : (duplicateRow freshKey key rows)[i + 1]? =
        some { r with key := freshKey } := by
      rw [hD, List.getElem?_append_right (by omega), htl, Nat.sub_self,
        List.getElem?_cons_zero]
    have hlen : (duplicateRow freshKey key rows).length = rows.length + 1 := by
      rw [hD, List.length_append, htl, List.length_cons, List.length_drop]
      omega
    refine ⟨hlen, hat, rfl, rfl, htake, hshift, ?_⟩
    intro hfresh j r' hj hsome
    have hmem : r' ∈ rows := by
      by_cases hji : j ≤ i
      · rw [htake j hji] at hsome
        obtain ⟨hlt, he⟩ := List.getElem?_eq_some.mp hsome
        exact he ▸ List.getElem_mem hlt
      · have h1 : j = (j - 1) + 1 := by omega
        rw [h1, hshift (j - 1) (by omega)] at hsome
        obtain ⟨hlt, he⟩ := List.getElem?_eq_some.mp hsome
        exact he ▸ List.getElem_mem hlt
    exact hfresh r' hmem

/-- C7 (witness): duplicating the middle row of a concrete three-row
collection yields four rows with the copy at index 2. -/
theorem c7_witness :
    (duplicateRow "z" "b" [rowA, rowB, rowC]).length
      = [rowA, rowB, rowC].length + 1 ∧
    (duplicateRow "z" "b" [rowA, rowB, rowC])[2]? = some { rowB with key := "z" } := by
  have h := (c7_duplicate "z" "b" [rowA, rowB, rowC]).2 1 rowB (by rfl) (by rfl)
  exact ⟨h.1, h.2.1⟩

/-- Characters produced by `Nat.digitChar` below 10 are digits. -/
theorem digitChar_isDigit : ∀ m, m < 10 → isDigitChar (Nat.digitChar m) = true := by
  decide

/-- Code point of a decimal digit character. -/
theorem digitChar_toNat : ∀ m, m < 10 → (Nat.digitChar m).toNat = 48 + m := by
  decide

/-- Every character of the decimal representation is a digit. -/
theorem natToChars_digits (n : Nat) : ∀ c ∈ natToChars n, isDigitChar c = true := by
  induction n using Nat.strong_induction_on with
  | _ n ih =>
    rw [natToChars]
    split
    next h =>
      intro c hc
      rw [List.mem_singleton] at hc
      subst hc
      exact digitChar_isDigit n h
    next h =>
      intro c hc
      rw [List.mem_append] at hc
      rcases hc with hc | hc
      · exact ih (n / 10) (Nat.div_lt_self (by omega) (by norm_num)) c hc
      · rw [List.mem_singleton] at hc
        subst hc
        exact digitChar_isDigit (n % 10) (Nat.mod_lt _ (by norm_num))

/-- The decimal representation is never empty. -/
theorem natToChars_ne_nil (n : Nat) : natToChars n ≠ [] := by
  rw [natToChars]
  split
  · simp
  · simp

/-- `parseInt` round-trips the decimal representation. -/
theorem parseDec_natToChars (n : Nat) : parseDec (natToChars n) = n := by
  induction n using Nat.strong_induction_on with
  | _ n ih =>
    rw [natToChars]
    split
    next h =>
      show 10 * 0 + ((Nat.digitChar n).toNat - 48) = n
      rw [digitChar_toNat n h]
      omega
    next h =>
      rw [parseDec, List.foldl_append]
      show 10 * (parseDec (natToChars (n / 10))) + ((Nat.digitChar (n % 10)).toNat - 48) = n
      rw [ih (n / 10) (Nat.div_lt_self (by omega) (by norm_num)),
        digitChar_toNat (n % 10) (Nat.mod_lt _ (by norm_num))]
      omega

/-- A digit character is not JavaScript whitespace. -/
theorem digit_not_ws (c : Char) (h : isDigitChar c = true) :
    isJsWhitespace c = false := by
  have h48 : 48 ≤ c.toNat := by
    simp only [isDigitChar, Bool.and_eq_true, decide_eq_true_eq] at h
    exact h.1
  by_contra hw
  rw [Bool.not_eq_false] at hw
  have h32 : c.toNat ≤ 32 := by
    simp only [isJsWhitespace, Bool.or_eq_true, decide_eq_true_eq] at hw
    rcases hw with ((((h | h) | h) | h) | h) | h <;> subst h <;> decide
  omega

/-- A digit character is not a comma. -/
theorem digit_ne_comma (c : Char) (h : isDigitChar c = true) : c ≠ ',' := by
  intro he
  rw [he] at h
  exact absurd h (by decide)

/-- `jsTrim` is the identity on strings with no whitespace characters. -/
theorem jsTrim_no_ws (l : List Char) (h : ∀ c ∈ l, isJsWhitespace c = false) :
    jsTrim l = l := by
  have h1 : ∀ m : List Char, (∀ c ∈ m, isJsWhitespace c = false) →
      m.dropWhile isJsWhitespace = m := by
    intro m hm
    cases m with
    | nil => rfl
    | cons a t =>
      rw [List.dropWhile_cons, if_neg]
      rw [hm a (List.mem_cons_self a t)]
      simp
  rw [jsTrim, h1 l h, h1 l.reverse (fun c hc => h c (List.mem_reverse.mp hc)),
    List.reverse_reverse]

/-- `splitOnComma` gives back a comma-free string as the single piece. -/
theorem splitOnComma_no_comma : ∀ l : List Char, ',' ∉ l → splitOnComma l = [l]
  | [], _ => rfl
  | c :: t, h => by
    have hc : ¬c = ',' := fun he => h (he ▸ List.mem_cons_self c t)
    have ht := splitOnComma_no_comma t (fun hm => h (List.mem_cons_of_mem c hm))
    simp only [splitOnComma]
    rw [if_neg hc, ht]

/-- C8: the default selection for a freshly uploaded document is the
string `1-{pageCount}` (the character `1`, a hyphen, then the decimal
representation of the page count), and for every `pageCount ≥ 1` it
passes validation against that page count; `pageCount = 1` yields
`"1-1"`. -/
theorem c8_default_selection_valid (n : Nat) (h : 1 ≤ n) :
    defaultSplitForPages n = '1' :: '-' :: natToChars n ∧
    isValidSplit (defaultSplitForPages n) n = true ∧
    defaultSplitForPages 1 = "1-1".toList := by
  refine ⟨rfl, ?_, ?_⟩
  · have hds_digits := natToChars_digits n
    have hds_ne := natToChars_ne_nil n
    have hnows : ∀ c ∈ ('1' :: '-' :: natToChars n), isJsWhitespace c = false := by
      intro c hc
      rw [List.mem_cons, List.mem_cons] at hc
      rcases hc with rfl | rfl | hc
      · decide
      · decide
      · exact digit_not_ws c (hds_digits c hc)
    have hnocomma : ',' ∉ ('1' :: '-' :: natToChars n) := by
      intro hmem
      rw [List.mem_cons, List.mem_cons] at hmem
      rcases hmem with he | he | hmem
      · exact absurd he (by decide)
      · exact absurd he (by decide)
      · exact digit_ne_comma ',' (hds_digits ',' hmem) rfl
    have htrim : jsTrim ('1' :: '-' :: natToChars n) = '1' :: '-' :: natToChars n :=
      jsTrim_no_ws _ hnows
    have hmatch : matchTerm ('1' :: '-' :: natToChars n) = some (1, n) := by
      have ht1 : ('1' :: '-' :: natToChars n).takeWhile isDigitChar = ['1'] := by
        rw [List.takeWhile_cons, if_pos (by decide), List.takeWhile_cons,
          if_neg (by decide)]
      have hd1 : ('1' :: '-' :: natToChars n).dropWhile isDigitChar
          = '-' :: natToChars n := by
        rw [List.dropWhile_cons, if_pos (by decide), List.dropWhile_cons,
          if_neg (by decide)]
      have ht2 : (natToChars n).takeWhile isDigitChar = natToChars n :=
        List.takeWhile_eq_self_iff.mpr hds_digits
      have hd2 : (natToChars n).dropWhile isDigitChar = [] :=
        List.dropWhile_eq_nil_iff.mpr hds_digits
      simp only [matchTerm, ht1, hd1, ht2, hd2]
      rw [if_pos trivial, parseDec_natToChars n, if_neg (by simp), if_neg hds_ne]
      rfl
    show isValidSplit ('1' :: '-' :: natToChars n) n = true
    unfold isValidSplit
    rw [htrim, if_neg (by simp), splitOnComma_no_comma _ hnocomma]
    simp only [List.map_cons, List.map_nil, htrim, List.filter_cons,
      List.filter_nil, List.isEmpty_cons, Bool.not_false, if_true,
      List.all_cons, List.all_nil, Bool.and_true, termCheckCode, hmatch]
    show (if (1 : Nat) < 1 ∨ n < 1 ∨ 1 > n ∨ n > n ∨ 1 > n then false else true) = true
    rw [if_neg (by omega)]
  · show '1' :: '-' :: natToChars 1 = _
    rw [natToChars]
    rfl

/-- C8 (witness): the one-page default `"1-1"` validates against one
page. -/
theorem c8_witness : 1 ≤ 1 ∧ isValidSplit (defaultSplitForPages 1) 1 = true :=
  ⟨le_refl 1, (c8_default_selection_valid 1 (le_refl 1)).2.1⟩

end PdfSplitter
